import Mathlib

/-!
Verification development for the retail sales aggregation / forecasting
pipeline in `src/app1.py`.

The pipeline (lines 36-139 of `app1.py`) is embedded shallowly:

* raw CSV rows become `RawRow` (each required column is an `Option`, `none`
  modelling a null or unparseable cell);
* `df.dropna()` followed by the `InvoiceDate` parse (lines 38-40) becomes
  `clean`;
* the `TotalSale` column (line 41) becomes `totalSale`;
* the country filter (line 46) becomes `filterCountry`;
* `groupby('InvoiceDate')[col].sum().resample('D').sum().fillna(0)`
  (lines 49 and 53) becomes `dailySales` / `dailyUnitsSeries`: the resampled
  index runs over every calendar day from the earliest to the latest
  timestamp's day, and each day's value is the sum over the records falling
  on that day (an empty bin sums to 0, so `fillna(0)` is a no-op);
* the `sklearn.LinearRegression` fit on the zero-based `day_number` column
  (lines 74-79) becomes the closed-form one-regressor OLS `coef` /
  `intercept`.  For a series of length ≥ 2 the closed form is exactly what
  `LinearRegression.fit` computes; for a one-point series sklearn's centred
  least-squares solve returns coefficient 0 and intercept equal to the mean,
  which the embedding reproduces because division by the zero denominator
  yields 0 in `ℚ`;
* `model.predict(np.arange(len, len + forecast_days))` (lines 85-86) becomes
  `rawPredictions`;
* `pd.date_range(last_date + 1 day, periods=forecast_days)` and the
  `clip(lower=0).round(2)` post-processing (lines 88-91) become
  `futureDates`, `round2` (round half to even, the numpy rounding mode,
  taken exactly at two decimals) and `forecastDf`.  On an empty daily
  series the source raises (`iloc[-1]` / `model.fit` on empty input), which
  the embedding models as `none`;
* `groupby('Description')['TotalSales'].sum().sort_values(ascending=False)
  .head(n)` (lines 109-110 and 122-123) becomes `top_products`: pandas
  `groupby` emits its keys in ascending sorted order (`sort=True` default),
  after which the value sort is descending.  The embedding uses a stable
  descending sort; numpy's introsort is stable on the small segments
  (length < 16) at which the concrete facts below evaluate it, and no
  general theorem below depends on the tie order of longer inputs.

Dates are integers (day numbers); timestamps carry a day and a
time-of-day, and aggregation truncates the time of day, exactly as
`resample('D')` bins by calendar day.  Money is `ℚ` (exact arithmetic).
-/

namespace RetailForecast

/-- A parsed timestamp: a calendar day number and a time of day in seconds.
`resample('D')` keys records by the day component only. -/
structure Timestamp where
  day : ℤ
  secs : ℕ
  deriving DecidableEq, Repr

/-- One raw CSV row.  A `none` field models a null / unparseable cell of the
corresponding required column. -/
structure RawRow where
  invoiceDate : Option Timestamp
  quantity : Option ℤ
  unitPrice : Option ℚ
  country : Option String
  description : Option String
  deriving DecidableEq

/-- A cleaned record: every required field present
(`df.dropna()` + `pd.to_datetime` succeeded). -/
structure Record where
  invoiceDate : Timestamp
  quantity : ℤ
  unitPrice : ℚ
  country : String
  description : String
  deriving DecidableEq, Repr

/-- Keep a raw row iff every required field is present (`df.dropna()`,
line 38, with the date parse of line 40). -/
def parseRow (row : RawRow) : Option Record :=
  match row.invoiceDate, row.quantity, row.unitPrice, row.country, row.description with
  | some ts, some q, some p, some c, some d => some ⟨ts, q, p, c, d⟩
  | _, _, _, _, _ => none

/-- `df.dropna(inplace=True)` (line 38): rows with any missing required
field are dropped, all others are kept in order. -/
def clean (rows : List RawRow) : List Record := rows.filterMap parseRow

/-- `df['TotalSale'] = df['Quantity'] * df['UnitPrice']` (line 41). -/
def totalSale (r : Record) : ℚ := (r.quantity : ℚ) * r.unitPrice

/-- `df = df[df['Country'] == country]` (line 46): exact, case-sensitive
string match. -/
def filterCountry (records : List Record) (c : String) : List Record :=
  records.filter (fun r => r.country = c)

/-- The calendar day of a record, i.e. its timestamp truncated to `'D'`. -/
def dateOf (r : Record) : ℤ := r.invoiceDate.day

/-- Earliest record day: start of the `resample('D')` index. -/
def minDate (records : List Record) : ℤ :=
  match records.map dateOf with
  | [] => 0
  | d :: ds => ds.foldl min d

/-- Latest record day: end of the `resample('D')` index. -/
def maxDate (records : List Record) : ℤ :=
  match records.map dateOf with
  | [] => 0
  | d :: ds => ds.foldl max d

/-- Number of rows of the resampled daily frame. -/
def numDays (records : List Record) : ℕ :=
  (maxDate records - minDate records + 1).toNat

/-- Revenue summed over the records of one calendar day (one daily bin of
line 49; an empty bin sums to 0). -/
def dailyTotal (records : List Record) (d : ℤ) : ℚ :=
  ((records.filter (fun r => dateOf r = d)).map totalSale).sum

/-- Units summed over the records of one calendar day (one daily bin of
line 53). -/
def dailyUnits (records : List Record) (d : ℤ) : ℤ :=
  ((records.filter (fun r => dateOf r = d)).map (fun r => r.quantity)).sum

/-- `daily_sales` (lines 49-50): one `(date, daily_total_sales)` row per
calendar day from the earliest to the latest record day, inclusive. -/
def dailySales (records : List Record) : List (ℤ × ℚ) :=
  if records = [] then []
  else (List.range (numDays records)).map
    (fun (i : ℕ) => (minDate records + (i : ℤ), dailyTotal records (minDate records + (i : ℤ))))

/-- `daily_units` (lines 53-54). -/
def dailyUnitsSeries (records : List Record) : List (ℤ × ℤ) :=
  if records = [] then []
  else (List.range (numDays records)).map
    (fun (i : ℕ) => (minDate records + (i : ℤ), dailyUnits records (minDate records + (i : ℤ))))

/-- Sum of the value column of a daily frame
(`daily_sales['daily_total_sales'].sum()`). -/
def seriesSum (s : List (ℤ × ℚ)) : ℚ := (s.map Prod.snd).sum

/-- Sum of `TotalSale` over a record list. -/
def sumTotal (records : List Record) : ℚ := (records.map totalSale).sum

/-! ### Linear trend model (lines 74-91)

`daily_sales['day_number'] = np.arange(len(daily_sales))` makes the
zero-based row index the single regressor; `LinearRegression().fit(X, y)`
computes the ordinary least-squares line.  The closed form below is the
unique least-squares solution whenever the design is nondegenerate
(series length ≥ 2); for a one-point series sklearn's centred solve
returns coefficient 0 and intercept equal to the observation, which the
embedding reproduces since `ℚ` division by the vanishing denominator
gives 0. -/

/-- `Σ i` over the day indices `0, …, n-1`. -/
def sx (n : ℕ) : ℚ := ((List.range n).map (fun (i : ℕ) => (i : ℚ))).sum

/-- `Σ i²` over the day indices. -/
def sxx (n : ℕ) : ℚ := ((List.range n).map (fun (i : ℕ) => (i : ℚ) * i)).sum

/-- `Σ y_i` over the revenue column. -/
def sy (s : List ℚ) : ℚ := s.sum

/-- `Σ i · y_i` over index/revenue pairs. -/
def sxy (s : List ℚ) : ℚ :=
  ((List.range s.length).map (fun (i : ℕ) => (i : ℚ) * s.getD i 0)).sum

/-- Determinant of the normal equations, `n·Σx² − (Σx)²`. -/
def regDen (n : ℕ) : ℚ := n * sxx n - sx n ^ 2

/-- `model.coef_`: the fitted slope. -/
def coef (s : List ℚ) : ℚ := (s.length * sxy s - sx s.length * sy s) / regDen s.length

/-- `model.intercept_`: the fitted intercept. -/
def intercept (s : List ℚ) : ℚ := (sy s - coef s * sx s.length) / s.length

/-- The fitted line evaluated at day index `x`. -/
def predictAt (s : List ℚ) (x : ℚ) : ℚ := intercept s + coef s * x

/-- `model.predict(np.arange(len(daily_sales), len(daily_sales) + forecast_days))`
(lines 85-86): the raw predictions at future indices `len, …, len+h-1`. -/
def rawPredictions (s : List ℚ) (h : ℕ) : List ℚ :=
  (List.range h).map (fun (k : ℕ) => predictAt s ((s.length : ℚ) + (k : ℚ)))

/-- Round half to even to the nearest integer (the numpy rounding mode). -/
def roundHalfEven (x : ℚ) : ℤ :=
  if x - ⌊x⌋ < 1 / 2 then ⌊x⌋
  else if 1 / 2 < x - ⌊x⌋ then ⌊x⌋ + 1
  else if ⌊x⌋ % 2 = 0 then ⌊x⌋ else ⌊x⌋ + 1

/-- `.round(2)` (line 91): round half to even at two decimal places. -/
def round2 (x : ℚ) : ℚ := (roundHalfEven (100 * x) : ℤ) / 100

/-- `pd.date_range(start=last_date + 1 day, periods=h)` (line 89). -/
def futureDates (last : ℤ) (h : ℕ) : List ℤ :=
  (List.range h).map (fun (k : ℕ) => last + 1 + (k : ℤ))

/-- `daily_sales['date'].iloc[-1]` (line 88); only meaningful on a
non-empty frame (on an empty one the source raises `IndexError`). -/
def lastDate (series : List (ℤ × ℚ)) : ℤ :=
  ((series.map Prod.fst).getLast?).getD 0

/-- Slider bounds and default of line 82:
`st.slider("Select number of days to forecast", 7, 90, 30)`. -/
def forecastDaysMin : ℕ := 7

/-- Upper slider bound of line 82. -/
def forecastDaysMax : ℕ := 90

/-- Slider default of line 82. -/
def forecastDaysDefault : ℕ := 30

/-- `forecast_df` (lines 85-91): future dates paired with the raw
predictions after `clip(lower=0).round(2)`.  On an empty daily series the
source raises (`model.fit` on an empty design, `iloc[-1]` on an empty
column), modelled as `none`. -/
def forecastDf (series : List (ℤ × ℚ)) (h : ℕ) : Option (List (ℤ × ℚ)) :=
  if series = [] then none
  else
    some (List.zip (futureDates (lastDate series) h)
      ((rawPredictions (series.map Prod.snd) h).map (fun x => round2 (max 0 x))))

/-! ### Top products (lines 109-110 and 122-123)

`df.groupby('Description')['TotalSales'].sum()` emits one row per distinct
description, keys in ascending sorted order (pandas `sort=True` default);
`sort_values(ascending=False)` then sorts by value descending, and
`head(n)` takes the first `n` rows.  String order is Python's
lexicographic comparison of code points.  The descending value sort is
embedded as a stable sort: numpy's introsort is stable on the segment
sizes (< 16) at which the concrete facts below evaluate it, and no general
theorem below depends on the tie order of longer inputs. -/

/-- Lexicographic comparison of code-point sequences: Python string `<`. -/
def lexLt : List Char → List Char → Bool
  | [], [] => false
  | [], _ :: _ => true
  | _ :: _, [] => false
  | a :: as, b :: bs => if a < b then true else if b < a then false else lexLt as bs

/-- The distinct descriptions in ascending (Python) string order: the
index of `df.groupby('Description')`. -/
def groupKeys (records : List Record) : List String :=
  List.insertionSort (fun a b => lexLt a.data b.data = true)
    ((records.map (fun r => r.description)).dedup)

/-- Revenue summed over the records of one description (one group of
line 109). -/
def descRevenue (records : List Record) (k : String) : ℚ :=
  ((records.filter (fun r => r.description = k)).map totalSale).sum

/-- `product_sales` (line 109): per-description revenue, sorted by revenue
descending. -/
def productSales (records : List Record) : List (String × ℚ) :=
  List.insertionSort (fun a b : String × ℚ => b.2 ≤ a.2)
    ((groupKeys records).map (fun k => (k, descRevenue records k)))

/-- `product_sales.head(n)` (lines 110 and 123). -/
def topProducts (records : List Record) (n : ℕ) : List (String × ℚ) :=
  (productSales records).take n

/-- Number of distinct descriptions in a record list. -/
def distinctDescCount (records : List Record) : ℕ :=
  ((records.map (fun r => r.description)).dedup).length

/-! ### Helper lemmas: extrema of the date column -/

lemma foldl_min_le_init (ds : List ℤ) (d : ℤ) : ds.foldl min d ≤ d := by
  induction ds generalizing d with
  | nil => simp
  | cons x xs ih =>
    simp only [List.foldl_cons]
    exact le_trans (ih (min d x)) (min_le_left d x)

lemma foldl_min_le_mem (ds : List ℤ) (d : ℤ) (x : ℤ) (hx : x ∈ ds) : ds.foldl min d ≤ x := by
  induction ds generalizing d with
  | nil => cases hx
  | cons a as ih =>
    simp only [List.foldl_cons]
    rcases List.mem_cons.mp hx with h | h
    · subst h
      exact le_trans (foldl_min_le_init as (min d x)) (min_le_right d x)
    · exact ih (min d a) h

lemma foldl_min_mem (ds : List ℤ) (d : ℤ) : ds.foldl min d = d ∨ ds.foldl min d ∈ ds := by
  induction ds generalizing d with
  | nil => exact Or.inl rfl
  | cons a as ih =>
    simp only [List.foldl_cons]
    rcases ih (min d a) with h | h
    · rcases min_choice d a with h2 | h2
      · exact Or.inl (by rw [h, h2])
      · exact Or.inr (by rw [h, h2]; exact List.mem_cons_self a as)
    · exact Or.inr (List.mem_cons_of_mem a h)

lemma init_le_foldl_max (ds : List ℤ) (d : ℤ) : d ≤ ds.foldl max d := by
  induction ds generalizing d with
  | nil => simp
  | cons x xs ih =>
    simp only [List.foldl_cons]
    exact le_trans (le_max_left d x) (ih (max d x))

lemma mem_le_foldl_max (ds : List ℤ) (d : ℤ) (x : ℤ) (hx : x ∈ ds) : x ≤ ds.foldl max d := by
  induction ds generalizing d with
  | nil => cases hx
  | cons a as ih =>
    simp only [List.foldl_cons]
    rcases List.mem_cons.mp hx with h | h
    · subst h
      exact le_trans (le_max_right d x) (init_le_foldl_max as (max d x))
    · exact ih (max d a) h

lemma foldl_max_mem (ds : List ℤ) (d : ℤ) : ds.foldl max d = d ∨ ds.foldl max d ∈ ds := by
  induction ds generalizing d with
  | nil => exact Or.inl rfl
  | cons a as ih =>
    simp only [List.foldl_cons]
    rcases ih (max d a) with h | h
    · rcases max_choice d a with h2 | h2
      · exact Or.inl (by rw [h, h2])
      · exact Or.inr (by rw [h, h2]; exact List.mem_cons_self a as)
    · exact Or.inr (List.mem_cons_of_mem a h)

lemma minDate_le (records : List Record) (r : Record) (hr : r ∈ records) :
    minDate records ≤ dateOf r := by
  have hmem : dateOf r ∈ records.map dateOf := List.mem_map_of_mem dateOf hr
  unfold minDate
  cases hmap : records.map dateOf with
  | nil => rw [hmap] at hmem; cases hmem
  | cons d ds =>
    rw [hmap] at hmem
    rcases List.mem_cons.mp hmem with h | h
    · rw [← h]; exact foldl_min_le_init ds _
    · exact foldl_min_le_mem ds d _ h

lemma le_maxDate (records : List Record) (r : Record) (hr : r ∈ records) :
    dateOf r ≤ maxDate records := by
  have hmem : dateOf r ∈ records.map dateOf := List.mem_map_of_mem dateOf hr
  unfold maxDate
  cases hmap : records.map dateOf with
  | nil => rw [hmap] at hmem; cases hmem
  | cons d ds =>
    rw [hmap] at hmem
    rcases List.mem_cons.mp hmem with h | h
    · rw [← h]; exact init_le_foldl_max ds _
    · exact mem_le_foldl_max ds d _ h

lemma exists_dateOf_eq_minDate (records : List Record) (hne : records ≠ []) :
    ∃ r ∈ records, dateOf r = minDate records := by
  unfold minDate
  cases hmap : records.map dateOf with
  | nil => exact absurd (List.map_eq_nil_iff.mp hmap) hne
  | cons d ds =>
    have : ds.foldl min d ∈ records.map dateOf := by
      rw [hmap]
      rcases foldl_min_mem ds d with h | h
      · rw [h]; exact List.mem_cons_self d ds
      · exact List.mem_cons_of_mem d h
    rcases List.mem_map.mp this with ⟨r, hr, hd⟩
    exact ⟨r, hr, hd⟩

lemma exists_dateOf_eq_maxDate (records : List Record) (hne : records ≠ []) :
    ∃ r ∈ records, dateOf r = maxDate records := by
  unfold maxDate
  cases hmap : records.map dateOf with
  | nil => exact absurd (List.map_eq_nil_iff.mp hmap) hne
  | cons d ds =>
    have : ds.foldl max d ∈ records.map dateOf := by
      rw [hmap]
      rcases foldl_max_mem ds d with h | h
      · rw [h]; exact List.mem_cons_self d ds
      · exact List.mem_cons_of_mem d h
    rcases List.mem_map.mp this with ⟨r, hr, hd⟩
    exact ⟨r, hr, hd⟩

lemma minDate_le_maxDate (records : List Record) (hne : records ≠ []) :
    minDate records ≤ maxDate records := by
  rcases exists_dateOf_eq_minDate records hne with ⟨r, hr, hd⟩
  exact hd ▸ le_maxDate records r hr

lemma numDays_cast (records : List Record) (hne : records ≠ []) :
    (numDays records : ℤ) = maxDate records - minDate records + 1 := by
  have h := minDate_le_maxDate records hne
  unfold numDays
  omega

/-! ### Helper lemmas: sums over the daily grid -/

lemma sum_map_sub {ι : Type} (l : List ι) (f g : ι → ℚ) :
    (l.map (fun i => f i - g i)).sum = (l.map f).sum - (l.map g).sum := by
  induction l with
  | nil => simp
  | cons a l ih =>
    simp only [List.map_cons, List.sum_cons, ih]
    ring

lemma sum_range_const (n : ℕ) (c : ℚ) :
    ((List.range n).map (fun _ => c)).sum = n * c := by
  induction n with
  | zero => simp
  | succ n ih =>
    rw [List.range_succ]
    simp only [List.map_append, List.sum_append, List.map_cons, List.map_nil,
      List.sum_cons, List.sum_nil, ih]
    push_cast
    ring

lemma sum_range_ite (n : ℕ) (lo a : ℤ) (v : ℚ) :
    ((List.range n).map (fun (i : ℕ) => if a = lo + (i : ℤ) then v else 0)).sum
      = if lo ≤ a ∧ a < lo + n then v else 0 := by
  induction n with
  | zero =>
    simp only [List.range_zero, List.map_nil, List.sum_nil]
    rw [if_neg (by omega)]
  | succ n ih =>
    rw [List.range_succ]
    simp only [List.map_append, List.sum_append, List.map_cons, List.map_nil,
      List.sum_cons, List.sum_nil, ih]
    push_cast
    by_cases h1 : a = lo + n
    · rw [if_neg (by omega), if_pos h1, if_pos (by omega)]
      ring
    · rw [if_neg h1]
      by_cases h2 : lo ≤ a ∧ a < lo + n
      · rw [if_pos h2, if_pos (by omega)]
        ring
      · rw [if_neg h2, if_neg (by omega)]
        ring

lemma dailyTotal_nil (d : ℤ) : dailyTotal [] d = 0 := by
  simp [dailyTotal]

lemma dailyTotal_cons (r : Record) (rs : List Record) (d : ℤ) :
    dailyTotal (r :: rs) d = (if dateOf r = d then totalSale r else 0) + dailyTotal rs d := by
  by_cases h : dateOf r = d <;> simp [dailyTotal, List.filter_cons, h]

lemma gridSum_eq_sumTotal (rs : List Record) (lo : ℤ) (n : ℕ)
    (hin : ∀ r ∈ rs, lo ≤ dateOf r ∧ dateOf r < lo + n) :
    ((List.range n).map (fun (i : ℕ) => dailyTotal rs (lo + i))).sum = sumTotal rs := by
  induction rs with
  | nil =>
    rw [show sumTotal [] = 0 from rfl]
    exact List.sum_eq_zero (by
      intro x hx
      rcases List.mem_map.mp hx with ⟨i, _, hi⟩
      rw [← hi, dailyTotal_nil])
  | cons r rs ih =>
    have h1 := hin r (List.mem_cons_self r rs)
    have h2 : ∀ x ∈ rs, lo ≤ dateOf x ∧ dateOf x < lo + n :=
      fun x hx => hin x (List.mem_cons_of_mem r hx)
    have hfun : (fun (i : ℕ) => dailyTotal (r :: rs) (lo + (i : ℤ)))
        = fun (i : ℕ) => (if dateOf r = lo + (i : ℤ) then totalSale r else 0)
            + dailyTotal rs (lo + (i : ℤ)) :=
      funext fun i => dailyTotal_cons r rs (lo + i)
    rw [hfun, List.sum_map_add, sum_range_ite, if_pos h1, ih h2]
    rfl

lemma seriesSum_dailySales (records : List Record) :
    seriesSum (dailySales records) = sumTotal records := by
  by_cases hne : records = []
  · subst hne
    simp [dailySales, seriesSum, sumTotal]
  · unfold dailySales seriesSum
    rw [if_neg hne, List.map_map]
    show ((List.range (numDays records)).map
        (fun (i : ℕ) => dailyTotal records (minDate records + i))).sum = sumTotal records
    refine gridSum_eq_sumTotal records (minDate records) (numDays records) ?_
    intro r hr
    have h1 := minDate_le records r hr
    have h2 := le_maxDate records r hr
    have h3 := numDays_cast records hne
    omega

/-! ### Claim C1 -/

/-- Claim C1: for every country-filtered record set with at least one record,
the aggregated daily series has exactly `(max_date − min_date).days + 1`
points; the `k`-th point is calendar day `minDate + k` (one point per day
from the earliest to the latest transaction day inclusive, no gaps, no
duplicates, and the units series is aligned the same way); every day with no
transactions carries `total_revenue = 0` and `total_units = 0`; and
`minDate` / `maxDate` are attained transaction days bounding all records. -/
theorem c1_zero_fill (cleaned : List Record) (c : String) (records : List Record)
    (_hrec : records = filterCountry cleaned c) (hne : records ≠ []) :
    (dailySales records).length = (maxDate records - minDate records).toNat + 1
    ∧ (dailyUnitsSeries records).length = (dailySales records).length
    ∧ (∀ k : ℕ, k < (dailySales records).length →
        (dailySales records)[k]?
            = some (minDate records + k, dailyTotal records (minDate records + k))
        ∧ (dailyUnitsSeries records)[k]?
            = some (minDate records + k, dailyUnits records (minDate records + k)))
    ∧ (∀ d : ℤ, records.filter (fun r => dateOf r = d) = [] →
        dailyTotal records d = 0 ∧ dailyUnits records d = 0)
    ∧ (∀ r ∈ records, minDate records ≤ dateOf r ∧ dateOf r ≤ maxDate records)
    ∧ (∃ r ∈ records, dateOf r = minDate records)
    ∧ (∃ r ∈ records, dateOf r = maxDate records) := by
  have hlen : (dailySales records).length = numDays records := by
    simp [dailySales, if_neg hne]
  have hlenu : (dailyUnitsSeries records).length = numDays records := by
    simp [dailyUnitsSeries, if_neg hne]
  have hmm := minDate_le_maxDate records hne
  have hnum : numDays records = (maxDate records - minDate records).toNat + 1 := by
    unfold numDays; omega
  refine ⟨by rw [hlen, hnum], by rw [hlenu, hlen], ?_, ?_, ?_,
    exists_dateOf_eq_minDate records hne, exists_dateOf_eq_maxDate records hne⟩
  · intro k hk
    rw [hlen] at hk
    constructor
    · simp [dailySales, if_neg hne, List.getElem?_range hk]
    · simp [dailyUnitsSeries, if_neg hne, List.getElem?_range hk]
  · intro d hd
    constructor
    · rw [dailyTotal, hd]; rfl
    · rw [dailyUnits, hd]; rfl
  · intro r hr
    exact ⟨minDate_le records r hr, le_maxDate records r hr⟩

/-- Witness for C1: the length clause at a concrete two-record dataset
spanning three calendar days. -/
theorem c1_zero_fill_witness :
    (dailySales (filterCountry
        [⟨⟨0, 10⟩, 2, 5, "UK", "apples"⟩, ⟨⟨2, 0⟩, 1, 3, "UK", "pears"⟩] "UK")).length
      = (maxDate (filterCountry
            [⟨⟨0, 10⟩, 2, 5, "UK", "apples"⟩, ⟨⟨2, 0⟩, 1, 3, "UK", "pears"⟩] "UK")
          - minDate (filterCountry
            [⟨⟨0, 10⟩, 2, 5, "UK", "apples"⟩, ⟨⟨2, 0⟩, 1, 3, "UK", "pears"⟩] "UK")).toNat
        + 1 :=
  (c1_zero_fill
    [⟨⟨0, 10⟩, 2, 5, "UK", "apples"⟩, ⟨⟨2, 0⟩, 1, 3, "UK", "pears"⟩] "UK"
    _ rfl (by simp [filterCountry])).1

/-! ### Claim C2 -/

/-- Claim C2: the sum of `total_revenue` over the aggregated daily series
equals the sum of `quantity × unit_price` over exactly the records whose
country equals the selected country, and the value is unchanged under any
permutation of the input rows. -/
theorem c2_revenue_identity (cleaned : List Record) (c : String) :
    seriesSum (dailySales (filterCountry cleaned c)) = sumTotal (filterCountry cleaned c)
    ∧ ∀ cleaned2 : List Record, cleaned.Perm cleaned2 →
        seriesSum (dailySales (filterCountry cleaned2 c))
          = seriesSum (dailySales (filterCountry cleaned c)) := by
  refine ⟨seriesSum_dailySales _, ?_⟩
  intro cleaned2 hperm
  rw [seriesSum_dailySales, seriesSum_dailySales]
  exact (((hperm.symm.filter _).map totalSale).sum_eq)

/-- Witness for C2: the permutation clause at a concrete two-record dataset
and its transposition. -/
theorem c2_revenue_identity_witness :
    seriesSum (dailySales (filterCountry
        [⟨⟨2, 0⟩, 1, 3, "UK", "pears"⟩, ⟨⟨0, 10⟩, 2, 5, "UK", "apples"⟩] "UK"))
      = seriesSum (dailySales (filterCountry
          [⟨⟨0, 10⟩, 2, 5, "UK", "apples"⟩, ⟨⟨2, 0⟩, 1, 3, "UK", "pears"⟩] "UK")) :=
  (c2_revenue_identity
      [⟨⟨0, 10⟩, 2, 5, "UK", "apples"⟩, ⟨⟨2, 0⟩, 1, 3, "UK", "pears"⟩] "UK").2
    [⟨⟨2, 0⟩, 1, 3, "UK", "pears"⟩, ⟨⟨0, 10⟩, 2, 5, "UK", "apples"⟩]
    (List.Perm.swap _ _ [])

end RetailForecast

namespace RetailForecast

/-! ### Helper lemmas: the least-squares fit -/

lemma sx_succ (n : ℕ) : sx (n + 1) = sx n + n := by
  unfold sx
  rw [List.range_succ]
  simp

lemma sxx_succ (n : ℕ) : sxx (n + 1) = sxx n + n * n := by
  unfold sxx
  rw [List.range_succ]
  simp

lemma sx_eq (n : ℕ) : sx n = n * (n - 1) / 2 := by
  induction n with
  | zero => simp [sx]
  | succ n ih =>
    rw [sx_succ, ih]
    push_cast
    ring

lemma sxx_eq (n : ℕ) : sxx n = n * (n - 1) * (2 * n - 1) / 6 := by
  induction n with
  | zero => simp [sxx]
  | succ n ih =>
    rw [sxx_succ, ih]
    push_cast
    ring

lemma regDen_eq (n : ℕ) : regDen n = (n : ℚ) ^ 2 * ((n : ℚ) ^ 2 - 1) / 12 := by
  unfold regDen
  rw [sx_eq, sxx_eq]
  ring

lemma regDen_ne (n : ℕ) (hn : 2 ≤ n) : regDen n ≠ 0 := by
  have h2 : (2 : ℚ) ≤ (n : ℚ) := by exact_mod_cast hn
  rw [regDen_eq]
  have hpos : 0 < (n : ℚ) ^ 2 * ((n : ℚ) ^ 2 - 1) / 12 := by
    apply div_pos
    · apply mul_pos
      · nlinarith
      · nlinarith
    · norm_num
  exact ne_of_gt hpos

lemma sum_range_getD (s : List ℚ) :
    ((List.range s.length).map (fun (i : ℕ) => s.getD i 0)).sum = sy s := by
  induction s with
  | nil => simp [sy]
  | cons a l ih =>
    rw [show (a :: l).length = l.length + 1 from rfl, List.range_succ_eq_map]
    rw [List.map_cons, List.map_map]
    have hfun : ((fun (i : ℕ) => (a :: l).getD i 0) ∘ Nat.succ)
        = fun (i : ℕ) => l.getD i 0 := by
      funext i
      simp [List.getD_cons_succ]
    rw [hfun, List.sum_cons, ih]
    rfl

lemma normal_eq_one (s : List ℚ) (hs : 2 ≤ s.length) :
    ((List.range s.length).map (fun (i : ℕ) => s.getD i 0 - predictAt s i)).sum = 0 := by
  have hn : ((s.length : ℚ)) ≠ 0 := Nat.cast_ne_zero.mpr (by omega)
  have hexp : (fun (i : ℕ) => s.getD i 0 - predictAt s i)
      = fun (i : ℕ) => s.getD i 0 - (intercept s + coef s * i) := rfl
  have hden := regDen_ne s.length hs
  rw [hexp, sum_map_sub, sum_range_getD, List.sum_map_add, sum_range_const,
    List.sum_map_mul_left]
  unfold intercept coef
  simp only [regDen, sx, sxx, sxy, sy] at hden ⊢
  field_simp
  ring

lemma normal_eq_two (s : List ℚ) (hs : 2 ≤ s.length) :
    ((List.range s.length).map
      (fun (i : ℕ) => (i : ℚ) * (s.getD i 0 - predictAt s i))).sum = 0 := by
  have hn : ((s.length : ℚ)) ≠ 0 := Nat.cast_ne_zero.mpr (by omega)
  have hden := regDen_ne s.length hs
  have hexp : (fun (i : ℕ) => (i : ℚ) * (s.getD i 0 - predictAt s i))
      = fun (i : ℕ) => (i : ℚ) * s.getD i 0
          - (intercept s * i + coef s * ((i : ℚ) * i)) := by
    funext i
    unfold predictAt
    ring
  rw [hexp, sum_map_sub, List.sum_map_add, List.sum_map_mul_left, List.sum_map_mul_left]
  unfold intercept coef
  simp only [regDen, sx, sxx, sxy, sy] at hden ⊢
  field_simp
  ring

end RetailForecast

namespace RetailForecast

/-! ### Claim C3 -/

/-- Claim C3: the forecaster fits ordinary least-squares simple linear
regression of revenue against the zero-based day index — stated as: the
design is nondegenerate and the fitted residuals satisfy both normal
equations (they sum to zero and are orthogonal to the day index), which
uniquely characterises the OLS line with one regressor and an intercept —
and it predicts at future index `len(series) + k` for `k < horizon`.  At the
concrete two-point series `day0 = 100, day1 = 200` the fit has slope 100 and
intercept 100, and the prediction at index 2 is 300. -/
theorem c3_ols_fit (s : List ℚ) (hs : 2 ≤ s.length) :
    regDen s.length ≠ 0
    ∧ ((List.range s.length).map (fun (i : ℕ) => s.getD i 0 - predictAt s i)).sum = 0
    ∧ ((List.range s.length).map
        (fun (i : ℕ) => (i : ℚ) * (s.getD i 0 - predictAt s i))).sum = 0
    ∧ (∀ h k : ℕ, k < h →
        (rawPredictions s h)[k]? = some (intercept s + coef s * ((s.length : ℚ) + k)))
    ∧ coef [100, 200] = 100 ∧ intercept [100, 200] = 100
    ∧ predictAt [100, 200] 2 = 300 := by
  refine ⟨regDen_ne s.length hs, normal_eq_one s hs, normal_eq_two s hs, ?_, ?_, ?_, ?_⟩
  · intro h k hk
    simp [rawPredictions, List.getElem?_range hk, predictAt]
  · norm_num [coef, sxy, sx, sy, sxx, regDen, List.range_succ]
  · norm_num [intercept, coef, sxy, sx, sy, sxx, regDen, List.range_succ]
  · norm_num [predictAt, intercept, coef, sxy, sx, sy, sxx, regDen, List.range_succ]

/-- Witness for C3 at the concrete Scenario-B series `[100, 200]`. -/
theorem c3_ols_fit_witness :
    coef [100, 200] = 100 ∧ intercept [100, 200] = 100
    ∧ predictAt [100, 200] 2 = 300 :=
  (c3_ols_fit [100, 200] (by norm_num)).2.2.2.2

/-! ### Claim C4 -/

lemma forecastDf_spec (series : List (ℤ × ℚ)) (h : ℕ) (hne : series ≠ []) :
    ∃ f, forecastDf series h = some f ∧ f.length = h
      ∧ ∀ k : ℕ, k < h → (f.map Prod.fst)[k]? = some (lastDate series + 1 + k) := by
  have hlen1 : (futureDates (lastDate series) h).length = h := by
    simp [futureDates]
  have hlen2 : ((rawPredictions (series.map Prod.snd) h).map
      (fun x => round2 (max 0 x))).length = h := by
    simp [rawPredictions]
  refine ⟨_, by rw [forecastDf, if_neg hne], ?_, ?_⟩
  · rw [List.length_zip, hlen1, hlen2, min_self]
  · intro k hk
    rw [List.map_fst_zip _ _ (by rw [hlen1, hlen2]), futureDates,
      List.getElem?_map, List.getElem?_range hk]
    rfl

/-- Claim C4: for every non-empty daily series and horizon, the forecast
output exists and has exactly `horizon` points whose dates are the
consecutive calendar days starting the day after the series' last date, with
no skipped days. -/
theorem c4_forecast_contiguity (series : List (ℤ × ℚ)) (h : ℕ) (hne : series ≠ []) :
    ∃ f, forecastDf series h = some f ∧ f.length = h
      ∧ ∀ k : ℕ, k < h → (f.map Prod.fst)[k]? = some (lastDate series + 1 + k) :=
  forecastDf_spec series h hne

/-- Witness for C4: Scenario C shape — series ending on day 10, horizon 5. -/
theorem c4_forecast_contiguity_witness :
    ∃ f, forecastDf [((10 : ℤ), (5 : ℚ))] 5 = some f ∧ f.length = 5
      ∧ ∀ k : ℕ, k < 5 →
          (f.map Prod.fst)[k]? = some (lastDate [((10 : ℤ), (5 : ℚ))] + 1 + k) :=
  c4_forecast_contiguity [((10 : ℤ), (5 : ℚ))] 5 (by simp)

/-! ### Claim C5 -/

lemma roundHalfEven_nonneg (x : ℚ) (hx : 0 ≤ x) : 0 ≤ roundHalfEven x := by
  unfold roundHalfEven
  have h0 : (0 : ℤ) ≤ ⌊x⌋ := Int.floor_nonneg.mpr hx
  split_ifs <;> omega

lemma round2_nonneg (x : ℚ) (hx : 0 ≤ x) : 0 ≤ round2 x := by
  unfold round2
  apply div_nonneg _ (by norm_num)
  exact_mod_cast roundHalfEven_nonneg _ (mul_nonneg (by norm_num) hx)

/-- Claim C5: every forecast point has `predicted_revenue ≥ 0` — including
under a negative-slope fit — because the raw prediction is clamped below at
zero before rounding. -/
theorem c5_nonneg_forecast (series : List (ℤ × ℚ)) (h : ℕ) (f : List (ℤ × ℚ))
    (hf : forecastDf series h = some f) :
    ∀ p ∈ f, 0 ≤ p.2 := by
  by_cases hne : series = []
  · rw [forecastDf, if_pos hne] at hf
    cases hf
  · rw [forecastDf, if_neg hne] at hf
    obtain rfl : _ = f := Option.some_injective _ hf
    rintro ⟨a, b⟩ hp
    have hb := (List.of_mem_zip hp).2
    rcases List.mem_map.mp hb with ⟨x, _, hx⟩
    rw [← hx]
    exact round2_nonneg _ (le_max_left 0 x)

/-- Witness for C5: a negative-slope two-point series (day0 = 200,
day1 = 100) with horizon 2; the second forecast point is clamped to 0. -/
theorem c5_nonneg_forecast_witness :
    (0 : ℚ) ≤ (((3 : ℤ), (0 : ℚ))).2 :=
  c5_nonneg_forecast [((0 : ℤ), (200 : ℚ)), (1, 100)] 2 [(2, 0), (3, 0)]
    (by
      rw [forecastDf, if_neg (by simp)]
      norm_num [futureDates, lastDate, rawPredictions, predictAt,
        intercept, coef, sxy, sx, sy, sxx, regDen, round2, roundHalfEven,
        List.range_succ, List.zip])
    (3, 0) (by simp)

end RetailForecast

namespace RetailForecast

/-! ### Claim C10 -/

/-- Claim C10: each emitted forecast value equals the raw linear-model
prediction at index `len(series) + k` clamped below at zero and then rounded
half-to-even at two decimal places, and is therefore an integer multiple of
`1/100` (never more than two decimal digits). -/
theorem c10_round_two (series : List (ℤ × ℚ)) (h : ℕ) (f : List (ℤ × ℚ)) (k : ℕ)
    (hf : forecastDf series h = some f) (hk : k < h) :
    (f.map Prod.snd)[k]?
        = some (round2 (max 0 (predictAt (series.map Prod.snd) ((series.length : ℚ) + k))))
    ∧ ∃ m : ℤ,
        round2 (max 0 (predictAt (series.map Prod.snd) ((series.length : ℚ) + k)))
          = (m : ℚ) / 100 := by
  constructor
  · by_cases hne : series = []
    · rw [forecastDf, if_pos hne] at hf
      cases hf
    · rw [forecastDf, if_neg hne] at hf
      obtain rfl := Option.some_injective _ hf
      rw [List.map_snd_zip _ _ (by simp [futureDates, rawPredictions])]
      simp [rawPredictions, List.getElem?_range hk]
  · exact ⟨roundHalfEven (100 * max 0
      (predictAt (series.map Prod.snd) ((series.length : ℚ) + k))), rfl⟩

/-- Witness for C10 at the one-point series `[(0, 100)]`, horizon 1. -/
theorem c10_round_two_witness :
    (([((1 : ℤ), (100 : ℚ))].map Prod.snd)[0]?
        = some (round2 (max 0 (predictAt ([((0 : ℤ), (100 : ℚ))].map Prod.snd)
            ((List.length [((0 : ℤ), (100 : ℚ))] : ℚ) + (0 : ℕ))))))
    ∧ ∃ m : ℤ,
        round2 (max 0 (predictAt ([((0 : ℤ), (100 : ℚ))].map Prod.snd)
            ((List.length [((0 : ℤ), (100 : ℚ))] : ℚ) + (0 : ℕ))))
          = (m : ℚ) / 100 :=
  c10_round_two [((0 : ℤ), (100 : ℚ))] 1 [((1 : ℤ), (100 : ℚ))] 0
    (by
      rw [forecastDf, if_neg (by simp)]
      norm_num [futureDates, lastDate, rawPredictions, predictAt,
        intercept, coef, sxy, sx, sy, sxx, regDen, round2, roundHalfEven,
        List.range_succ, List.zip])
    (by norm_num)

/-! ### Claim C6 -/

/-- Counterexample to C6 as stated: at `horizon_days = 6` (outside `[7, 90]`)
the pipeline does not surface any error result and does compute a forecast —
on the series `[(0, 100), (1, 200)]` it returns a 6-point forecast frame. -/
theorem c6_counterexample :
    forecastDf [((0 : ℤ), (100 : ℚ)), (1, 200)] 6 ≠ none
    ∧ ((forecastDf [((0 : ℤ), (100 : ℚ)), (1, 200)] 6).getD []).length = 6 := by
  constructor
  · rw [forecastDf, if_neg (by simp)]
    simp
  · rw [forecastDf, if_neg (by simp)]
    simp [futureDates, rawPredictions, List.length_zip]

/-- Amended C6: the horizon is constrained to `[7, 90]` (default 30) only by
the UI slider of line 82, so out-of-range values cannot reach the forecaster
from the interface; the forecasting code itself performs no horizon
validation and surfaces no `InvalidHorizon` result — for every non-empty
series and every horizon `h` whatsoever it computes an `h`-point forecast. -/
theorem c6_amended_slider_only (series : List (ℤ × ℚ)) (h : ℕ) (hne : series ≠ []) :
    forecastDaysMin = 7 ∧ forecastDaysMax = 90 ∧ forecastDaysDefault = 30
    ∧ ∃ f, forecastDf series h = some f ∧ f.length = h := by
  refine ⟨rfl, rfl, rfl, ?_⟩
  rcases forecastDf_spec series h hne with ⟨f, h1, h2, _⟩
  exact ⟨f, h1, h2⟩

/-- Witness for amended C6: horizon 6 — below the slider minimum — still
yields a 6-point forecast. -/
theorem c6_amended_slider_only_witness :
    forecastDaysMin = 7 ∧ forecastDaysMax = 90 ∧ forecastDaysDefault = 30
    ∧ ∃ f, forecastDf [((0 : ℤ), (100 : ℚ)), (1, 200)] 6 = some f ∧ f.length = 6 :=
  c6_amended_slider_only [((0 : ℤ), (100 : ℚ)), (1, 200)] 6 (by simp)

/-! ### Claim C7 -/

/-- Claim C7 concerns series with fewer than 2 points.  The source has no
guard: for the one-point series `[(day 0, 100)]` it silently fits the
unguarded regression — the degenerate centred solve yields coefficient 0 and
intercept 100 — and projects a flat 7-point forecast at 100; for the empty
series it raises (modelled as `none`).  No `InsufficientHistory` result or
documented fallback exists anywhere in the pipeline. -/
theorem c7_degenerate_fit :
    coef [(100 : ℚ)] = 0 ∧ intercept [(100 : ℚ)] = 100
    ∧ forecastDf [((0 : ℤ), (100 : ℚ))] 7
        = some [(1, 100), (2, 100), (3, 100), (4, 100), (5, 100), (6, 100), (7, 100)]
    ∧ forecastDf [] 7 = none := by
  refine ⟨?_, ?_, ?_, by rw [forecastDf, if_pos rfl]⟩
  · norm_num [coef, sxy, sx, sy, sxx, regDen, List.range_succ]
  · norm_num [intercept, coef, sxy, sx, sy, sxx, regDen, List.range_succ]
  · rw [forecastDf, if_neg (by simp)]
    norm_num [futureDates, lastDate, rawPredictions, predictAt, intercept, coef,
      sxy, sx, sy, sxx, regDen, round2, roundHalfEven, List.range_succ, List.zip]

end RetailForecast

namespace RetailForecast

/-! ### Claim C8 -/

lemma productSales_length (records : List Record) :
    (productSales records).length = distinctDescCount records := by
  unfold productSales groupKeys distinctDescCount
  rw [List.length_insertionSort, List.length_map, List.length_insertionSort]

lemma productSales_sorted (records : List Record) :
    List.Sorted (fun a b : String × ℚ => b.2 ≤ a.2) (productSales records) := by
  haveI : IsTotal (String × ℚ) (fun a b => b.2 ≤ a.2) := ⟨fun a b => le_total b.2 a.2⟩
  haveI : IsTrans (String × ℚ) (fun a b => b.2 ≤ a.2) :=
    ⟨fun _ _ _ hab hbc => le_trans hbc hab⟩
  exact List.sorted_insertionSort _ _

/-- Counterexample to C8 as stated: on a country-filtered record set whose
rows are encountered in the order `zebra` (revenue 10), `apple` (revenue 10),
`top_products` returns the tie in the order `apple, zebra` — the alphabetical
order of the `groupby` keys — not the first-encountered order `zebra, apple`
the claim demands. -/
theorem c8_counterexample :
    topProducts (filterCountry
        [⟨⟨0, 0⟩, 1, 10, "UK", "zebra"⟩, ⟨⟨0, 0⟩, 1, 10, "UK", "apple"⟩] "UK") 2
      = [("apple", 10), ("zebra", 10)]
    ∧ ([(("apple" : String), (10 : ℚ)), ("zebra", 10)] : List (String × ℚ))
        ≠ [("zebra", 10), ("apple", 10)] := by
  constructor
  · simp [topProducts, productSales, groupKeys, descRevenue, totalSale, lexLt,
      filterCountry, List.insertionSort, List.orderedInsert,
      List.dedup_cons_of_not_mem, List.filter_cons, List.filter_nil]
  · simp

/-- Amended C8: `top_products(records, n)` returns exactly
`min(n, distinct_description_count)` entries in non-increasing order of
summed revenue; ties between equal revenues are NOT broken by
first-encountered order — `groupby` emits its keys alphabetically, so at the
concrete tie above the output order is `apple, zebra` although `zebra` was
encountered first. -/
theorem c8_top_products (records : List Record) (n : ℕ) :
    (topProducts records n).length = min n (distinctDescCount records)
    ∧ List.Sorted (fun a b : String × ℚ => b.2 ≤ a.2) (topProducts records n)
    ∧ topProducts (filterCountry
        [⟨⟨0, 0⟩, 1, 10, "UK", "zebra"⟩, ⟨⟨0, 0⟩, 1, 10, "UK", "apple"⟩] "UK") 2
      = [("apple", 10), ("zebra", 10)] := by
  refine ⟨?_, ?_, ?_⟩
  · rw [topProducts, List.length_take, productSales_length]
  · exact List.Pairwise.sublist (List.take_sublist n _) (productSales_sorted records)
  · simp [topProducts, productSales, groupKeys, descRevenue, totalSale, lexLt,
      filterCountry, List.insertionSort, List.orderedInsert,
      List.dedup_cons_of_not_mem, List.filter_cons, List.filter_nil]

/-! ### Claim C9 -/

/-- Claim C9: a raw row with all required fields present is retained by
cleaning even when its quantity is negative (`dropna` only removes missing
fields), and its `quantity × unit_price` contributes that negative amount to
the aggregated daily totals: adding such a record changes the series total
by exactly `q · p < 0`, strictly reducing it. -/
theorem c9_negative_quantity (rows : List RawRow) (cleaned : List Record)
    (ts : Timestamp) (q : ℤ) (up : ℚ) (c : String) (dsc : String)
    (hq : q < 0) (hup : 0 < up) :
    clean (⟨some ts, some q, some up, some c, some dsc⟩ :: rows)
        = ⟨ts, q, up, c, dsc⟩ :: clean rows
    ∧ seriesSum (dailySales (filterCountry (⟨ts, q, up, c, dsc⟩ :: cleaned) c))
        = (q : ℚ) * up + seriesSum (dailySales (filterCountry cleaned c))
    ∧ seriesSum (dailySales (filterCountry (⟨ts, q, up, c, dsc⟩ :: cleaned) c))
        < seriesSum (dailySales (filterCountry cleaned c)) := by
  have hfilter : filterCountry (⟨ts, q, up, c, dsc⟩ :: cleaned) c
      = ⟨ts, q, up, c, dsc⟩ :: filterCountry cleaned c := by
    simp [filterCountry, List.filter_cons]
  have hsum : seriesSum (dailySales (filterCountry (⟨ts, q, up, c, dsc⟩ :: cleaned) c))
      = (q : ℚ) * up + seriesSum (dailySales (filterCountry cleaned c)) := by
    rw [seriesSum_dailySales, seriesSum_dailySales, hfilter]
    simp [sumTotal, totalSale]
  have hneg : (q : ℚ) * up < 0 :=
    mul_neg_of_neg_of_pos (by exact_mod_cast hq) hup
  exact ⟨rfl, hsum, by rw [hsum]; linarith⟩

/-- Witness for C9: a single returned item (quantity −2, price 3) strictly
reduces the series total. -/
theorem c9_negative_quantity_witness :
    seriesSum (dailySales (filterCountry [⟨⟨0, 0⟩, -2, 3, "UK", "gift"⟩] "UK"))
      < seriesSum (dailySales (filterCountry [] "UK")) :=
  (c9_negative_quantity [] [] ⟨0, 0⟩ (-2) 3 "UK" "gift"
    (by norm_num) (by norm_num)).2.2

end RetailForecast
